import Mathlib

/-!
Shallow embedding of the audio-corpus preparation pipeline contained in
`examples/hi_xiaowen/s0`: noise synthesis and mixing (`数据增强.py`),
corpus balancing (`数据平衡.py`) and dataset partitioning with label
generation (`数据标签制作.py`).

Numeric model: sample values are exact rationals.  The IEEE-754 special
values that numpy's elementwise division can produce (NaN and the two
infinities) are modelled explicitly by the `NpFloat` type, because the
behaviour of `noise / np.max(np.abs(noise))` on an all-zero noise vector
is observable (numpy emits NaN instead of raising).  Rounding of finite
float arithmetic is idealised to exact rational arithmetic; none of the
properties proved below depends on rounding.

External collaborators (numpy's globally seeded random generator, its
real FFT routines and its square root, and Python's `random` module) are
modelled as explicit environment records: after `np.random.seed(seed)`
(resp. `random.seed(seed)`) every draw is a pure function of the seed and
of the position of the draw in the stream, which is exactly the
determinism the scripts rely on.  The FFT fields abstract the values
computed by `np.fft.rfft` / `np.fft.irfft` while forcing their lengths
(`n/2 + 1` bins for a length-`n` real input, `2*(m-1)` samples back from
`m` bins), which is what the control flow of the code depends on.
-/

/- Rational arithmetic in Batteries is sealed behind `irreducible`
attributes; re-open it for this file so that the closed witness
computations below evaluate inside the kernel via `decide`. -/
attribute [local semireducible] Rat.mul Rat.add Rat.sub Rat.inv

/-- A numpy floating-point scalar: a finite value (idealised as an exact
rational) or one of the IEEE special values produced by `0/0` and `x/0`. -/
inductive NpFloat where
  | val : ℚ → NpFloat
  | nan : NpFloat
  | inf : NpFloat
  | neginf : NpFloat
deriving DecidableEq, Repr

/-- IEEE addition on `NpFloat` (the cases used by `y + noise_level * noise`). -/
def npAdd : NpFloat → NpFloat → NpFloat
  | .nan, _ => .nan
  | _, .nan => .nan
  | .inf, .neginf => .nan
  | .neginf, .inf => .nan
  | .inf, _ => .inf
  | _, .inf => .inf
  | .neginf, _ => .neginf
  | _, .neginf => .neginf
  | .val a, .val b => .val (a + b)

/-- IEEE multiplication of an `NpFloat` by the finite scalar `noise_level`. -/
def npScale (l : ℚ) : NpFloat → NpFloat
  | .val a => .val (l * a)
  | .nan => .nan
  | .inf => if 0 < l then .inf else if l < 0 then .neginf else .nan
  | .neginf => if 0 < l then .neginf else if l < 0 then .inf else .nan

/-- Executable rational maximum (kernel-reducible, unlike the lattice one). -/
def qmax (a b : ℚ) : ℚ := if a ≤ b then b else a

/-- Executable rational minimum. -/
def qmin (a b : ℚ) : ℚ := if a ≤ b then a else b

/-- Executable rational absolute value. -/
def qabs (a : ℚ) : ℚ := if a < 0 then -a else a

theorem qmax_eq (a b : ℚ) : qmax a b = max a b := by
  by_cases h : a ≤ b <;> simp [qmax, h, max_eq_right, max_eq_left, le_of_not_le]

theorem qmin_eq (a b : ℚ) : qmin a b = min a b := by
  by_cases h : a ≤ b <;> simp [qmin, h, min_eq_left, min_eq_right, le_of_not_le]

theorem qabs_eq (a : ℚ) : qabs a = |a| := by
  by_cases h : a < 0
  · rw [qabs, if_pos h, abs_of_neg h]
  · rw [qabs, if_neg h, abs_of_nonneg (le_of_not_lt h)]

/-- `np.clip(x, lo, hi)` = `min (max x lo) hi`; NaN propagates, infinities
saturate to the corresponding bound. -/
def npClip (lo hi : ℚ) : NpFloat → NpFloat
  | .val a => .val (qmin (qmax a lo) hi)
  | .nan => .nan
  | .inf => .val hi
  | .neginf => .val lo

/-- IEEE division of the finite scalar `x` by the finite scalar `m`
(`noise / np.max(np.abs(noise))` divides elementwise by a scalar):
`0/0` is NaN, `x/0` is a signed infinity, otherwise exact. -/
def qdivNp (x m : ℚ) : NpFloat :=
  if m = 0 then (if x = 0 then .nan else if 0 < x then .inf else .neginf)
  else .val (x / m)

/-- `np.max(np.abs(noise))` for a nonempty list (the code raises on an
empty array before this value is used; `0` is returned here for `[]`). -/
def maxAbs (l : List ℚ) : ℚ :=
  l.foldl (fun m x => qmax m (qabs x)) 0

/-- Does a mixed sample lie inside the clipping range `[-1, 1]`?
NaN and the infinities do not. -/
def inRangeB : NpFloat → Bool
  | .val q => decide (-1 ≤ q ∧ q ≤ 1)
  | _ => false

/-- Model of the numpy collaborators used by `add_noise_to_audio`:
`gaussOf s i` is the `i`-th standard normal draw after `np.random.seed s`;
`intOf s i` drives the `i`-th `np.random.randint` draw (used modulo the
requested bound, reflecting the library's range guarantee);
`rfftRe x k` / `rfftIm x k` are the real and imaginary parts of bin `k`
of `np.fft.rfft x`; `irfftAt bins j` is sample `j` of `np.fft.irfft bins`;
`sqrtQ` is `np.sqrt` (every value a float computes is a rational). -/
structure NumpyEnv where
  gaussOf : ℤ → ℕ → ℚ
  intOf : ℤ → ℕ → ℕ
  rfftRe : List ℚ → ℕ → ℚ
  rfftIm : List ℚ → ℕ → ℚ
  irfftAt : List (ℚ × ℚ) → ℕ → ℚ
  sqrtQ : ℚ → ℚ

/-- `np.random.normal(0, 1, n)`: the first `n` standard normal draws. -/
def whiteNoise (env : NumpyEnv) (n : ℕ) (seed : ℤ) : List ℚ :=
  (List.range n).map (env.gaussOf seed)

/-- `np.fft.rfft` applied to a length-`n` real input yields `n / 2 + 1`
complex bins (modelled as pairs of rationals). -/
def rfftBins (env : NumpyEnv) (x : List ℚ) : List (ℚ × ℚ) :=
  (List.range (x.length / 2 + 1)).map (fun k => (env.rfftRe x k, env.rfftIm x k))

/-- `np.fft.rfftfreq(n, 1/sr)` with the code's zero-bin replacement
`freq[freq == 0] = 1e-8`: bin `k` has frequency `k * sr / n`. -/
def freqAdj (n sr k : ℕ) : ℚ :=
  if ((k : ℚ) * sr) / n = 0 then 1 / 100000000 else ((k : ℚ) * sr) / n

/-- Pink noise (`noise_type == "pink"`): draw white noise, transform with
`rfft`, divide each bin by the square root of its (zero-adjusted)
frequency, and transform back with `irfft`.  `np.fft.irfft` on `m` bins
returns `2 * (m - 1)` samples, so a length-`n` input comes back with
length `2 * (n / 2)` — equal to `n` only when `n` is even. -/
def pinkNoise (env : NumpyEnv) (n sr : ℕ) (seed : ℤ) : List ℚ :=
  let white := whiteNoise env n seed
  let bins := rfftBins env white
  let shaped := bins.mapIdx (fun k c =>
    (c.1 / env.sqrtQ (freqAdj n sr k), c.2 / env.sqrtQ (freqAdj n sr k)))
  (List.range (2 * (shaped.length - 1))).map (env.irfftAt shaped)

/-- `num_impulses = int(len(y) * 0.001)`; for every length representable
as a double, `int(len(y) * 0.001)` equals `⌊len(y) / 1000⌋`. -/
def numImpulses (n : ℕ) : ℕ := n / 1000

/-- `np.random.randint(0, len(y), num_impulses)`: the drawn impulse
positions, each uniform in `[0, len(y))` (range guarantee via `% n`). -/
def impulsePositions (env : NumpyEnv) (n : ℕ) (seed : ℤ) : List ℕ :=
  (List.range (numImpulses n)).map (fun i => env.intOf seed i % n)

/-- `np.random.normal(0, 5, num_impulses)`: the impulse amplitudes. -/
def impulseAmps (env : NumpyEnv) (n : ℕ) (seed : ℤ) : List ℚ :=
  (List.range (numImpulses n)).map (fun i => 5 * env.gaussOf seed i)

/-- `noise[impulse_pos] = amps`: numpy fancy-index assignment writes the
pairs in order, so on duplicate positions the last write wins. -/
def assignAll (base : List ℚ) (ps : List (ℕ × ℚ)) : List ℚ :=
  ps.foldl (fun acc pv => acc.set pv.1 pv.2) base

/-- Impulse noise (`noise_type == "impulse"`): all zeros except at the
drawn positions. -/
def impulseNoise (env : NumpyEnv) (n : ℕ) (seed : ℤ) : List ℚ :=
  assignAll (List.replicate n 0) ((impulsePositions env n seed).zip (impulseAmps env n seed))

/-- Noise synthesis dispatch of `add_noise_to_audio`.  `none` models the
exceptions caught by the surrounding `try`: an unrecognised
`noise_type` (`ValueError`) and `np.fft.rfft` on a zero-length input
(`ValueError`), both before any output is produced. -/
def synthesize (env : NumpyEnv) (kind : String) (n sr : ℕ) (seed : ℤ) : Option (List ℚ) :=
  if kind = "white" then some (whiteNoise env n seed)
  else if kind = "pink" then
    if n = 0 then none else some (pinkNoise env n sr seed)
  else if kind = "impulse" then some (impulseNoise env n seed)
  else none

/-- `noise_level * (noise / np.max(np.abs(noise)))`: the scaled normalised
noise that is added to the waveform. -/
def scaledNoise (noise : List ℚ) (level : ℚ) : List NpFloat :=
  (noise.map (fun x => qdivNp x (maxAbs noise))).map (npScale level)

/-- numpy broadcasting for `y + scaled`: equal lengths add elementwise, a
length-1 operand broadcasts, anything else raises (`none`). -/
def npBroadcastAdd (a b : List NpFloat) : Option (List NpFloat) :=
  if a.length = b.length then some (List.zipWith npAdd a b)
  else if b.length = 1 then some (a.map (fun x => npAdd x (b.getD 0 .nan)))
  else if a.length = 1 then some (b.map (fun x => npAdd (a.getD 0 .nan) x))
  else none

/-- `add_noise_to_audio` after the audio has been read: re-seed the
generator, synthesise noise of the waveform's length, normalise it by its
maximum absolute value, add it scaled by `noise_level`, clip to
`[-1, 1]`, and hand the result (with the unchanged sample rate) to the
writer.  `none` is any exception caught by the `try` (the function then
returns `False` and writes nothing): unknown noise type, `np.max` on an
empty array, or a broadcasting mismatch. -/
def add_noise_to_audio (env : NumpyEnv) (y : List ℚ) (sr : ℕ)
    (noise_type : String) (noise_level : ℚ) (seed : ℤ) :
    Option (List NpFloat × ℕ) :=
  match synthesize env noise_type y.length sr seed with
  | none => none
  | some noise =>
    if noise.length = 0 then none
    else
      match npBroadcastAdd (y.map NpFloat.val) (scaledNoise noise noise_level) with
      | none => none
      | some s => some (s.map (npClip (-1) 1), sr)

/-- The additive noise sequence of a mix call: `noise_level * normalised
noise`, determined by the noise type, the waveform length, the sample
rate and the seed. -/
def additiveNoise (env : NumpyEnv) (kind : String) (n sr : ℕ) (level : ℚ) (seed : ℤ) :
    Option (List NpFloat) :=
  match synthesize env kind n sr seed with
  | none => none
  | some noise =>
    if noise.length = 0 then none else some (scaledNoise noise level)

/-- `assignAll` never changes the length of the underlying buffer. -/
theorem assignAll_length (ps : List (ℕ × ℚ)) (base : List ℚ) :
    (assignAll base ps).length = base.length := by
  induction ps generalizing base with
  | nil => rfl
  | cons pv ps ih =>
    simp [assignAll, List.foldl_cons] at *
    rw [ih]
    simp

/-- Length of each synthesised noise kind: white and impulse noise match
the requested length; pink noise comes back from `irfft` with length
`2 * (n / 2)`. -/
theorem synth_length (env : NumpyEnv) (kind : String) (n sr : ℕ) (seed : ℤ)
    (noise : List ℚ) (h : synthesize env kind n sr seed = some noise) :
    noise.length = n ∨ noise.length = 2 * (n / 2) := by
  unfold synthesize at h
  split_ifs at h with h1 h2 h3 h4
  · left
    cases h
    simp [whiteNoise]
  · cases h
    right
    simp [pinkNoise, rfftBins, whiteNoise]
  · left
    cases h
    simp [impulseNoise, assignAll_length]

/-- Structure of every successful mix: the broadcast always takes the
equal-length branch, so the output is the clipped elementwise sum of the
waveform and the additive noise sequence, and the sample rate is passed
through unchanged. -/
theorem mix_some_eq (env : NumpyEnv) (y : List ℚ) (sr : ℕ) (kind : String)
    (level : ℚ) (seed : ℤ) (w : List NpFloat × ℕ)
    (h : add_noise_to_audio env y sr kind level seed = some w) :
    ∃ a, additiveNoise env kind y.length sr level seed = some a ∧
      a.length = y.length ∧
      w.1 = (List.zipWith npAdd (y.map NpFloat.val) a).map (npClip (-1) 1) ∧
      w.2 = sr := by
  unfold add_noise_to_audio at h
  split at h
  · exact absurd h (by simp)
  next noise hs =>
    split at h
    next hlen => exact absurd h (by simp)
    next hlen =>
      have hscaled : (scaledNoise noise level).length = noise.length := by
        simp [scaledNoise]
      split at h
      · exact absurd h (by simp)
      next s hb =>
        -- show the broadcast took the equal-length branch
        have hys : (y.map NpFloat.val).length = (scaledNoise noise level).length := by
          by_contra hne
          unfold npBroadcastAdd at hb
          rw [if_neg hne] at hb
          rcases synth_length env kind y.length sr seed noise hs with hn | hn
          · -- noise has the waveform's length, contradicting `hne`
            exact hne (by simp [hscaled, hn])
          · by_cases h1 : (scaledNoise noise level).length = 1
            · -- pink length `2 * (n/2)` is even, never 1
              rw [hscaled, hn] at h1
              omega
            · rw [if_neg h1] at hb
              by_cases h2 : (y.map NpFloat.val).length = 1
              · -- waveform length 1 forces pink noise length 0, excluded
                simp only [List.length_map] at h2
                rw [h2] at hn
                exact hlen (by omega)
              · rw [if_neg h2] at hb
                exact absurd hb (by simp)
        unfold npBroadcastAdd at hb
        rw [if_pos hys] at hb
        cases hb
        cases h
        refine ⟨scaledNoise noise level, ?_, ?_, rfl, rfl⟩
        · simp [additiveNoise, hs, hlen]
        · simp only [List.length_map] at hys
          rw [hscaled] at hys
          rw [hscaled]
          exact hys.symm

/-- The running maximum in `maxAbs` only grows. -/
theorem foldl_max_init_le (l : List ℚ) (init : ℚ) :
    init ≤ l.foldl (fun m x => qmax m (qabs x)) init := by
  induction l generalizing init with
  | nil => exact le_refl _
  | cons hd tl ih =>
    refine le_trans ?_ (ih (qmax init (qabs hd)))
    rw [qmax_eq]
    exact le_max_left _ _

/-- Every member of the list is bounded by `maxAbs` (for any start value). -/
theorem mem_le_foldl_max (l : List ℚ) (init : ℚ) (x : ℚ) (hx : x ∈ l) :
    |x| ≤ l.foldl (fun m x => qmax m (qabs x)) init := by
  induction l generalizing init with
  | nil => cases hx
  | cons hd tl ih =>
    rcases List.mem_cons.mp hx with rfl | hx
    · refine le_trans ?_ (foldl_max_init_le tl (qmax init (qabs x)))
      rw [qmax_eq, qabs_eq]
      exact le_max_right _ _
    · exact ih (qmax init (qabs hd)) hx

/-- A noise vector whose maximum absolute value is zero is all-zero. -/
theorem maxAbs_zero_all (l : List ℚ) (h : maxAbs l = 0) : ∀ x ∈ l, x = 0 := by
  intro x hx
  have h1 : |x| ≤ 0 := by
    have := mem_le_foldl_max l 0 x hx
    rwa [show l.foldl (fun m x => qmax m (qabs x)) 0 = maxAbs l from rfl, h] at this
  exact abs_eq_zero.mp (le_antisymm h1 (abs_nonneg x))

/-- When the normaliser is zero, every scaled noise sample is NaN. -/
theorem scaledNoise_allzero_nan (noise : List ℚ) (level : ℚ)
    (hz : maxAbs noise = 0) : ∀ b ∈ scaledNoise noise level, b = NpFloat.nan := by
  intro b hb
  simp only [scaledNoise, List.map_map, List.mem_map] at hb
  obtain ⟨x, hx, rfl⟩ := hb
  have hx0 : x = 0 := maxAbs_zero_all noise hz x hx
  simp [qdivNp, hz, hx0, npScale]

/-- When the normaliser is nonzero, every scaled noise sample is finite. -/
theorem scaledNoise_val (noise : List ℚ) (level : ℚ)
    (hz : maxAbs noise ≠ 0) : ∀ b ∈ scaledNoise noise level, ∃ r, b = NpFloat.val r := by
  intro b hb
  simp only [scaledNoise, List.map_map, List.mem_map] at hb
  obtain ⟨x, _, rfl⟩ := hb
  exact ⟨level * (x / maxAbs noise), by simp [qdivNp, hz, npScale]⟩

/-- Adding an all-NaN noise vector and clipping yields only NaN samples. -/
theorem clip_zip_nan (ys : List ℚ) (a : List NpFloat)
    (ha : ∀ b ∈ a, b = NpFloat.nan) :
    ∀ x ∈ (List.zipWith npAdd (ys.map NpFloat.val) a).map (npClip (-1) 1),
      x = NpFloat.nan := by
  induction ys generalizing a with
  | nil => intro x hx; simp at hx
  | cons y ys ih =>
    cases a with
    | nil => intro x hx; simp at hx
    | cons b a =>
      intro x hx
      have hb : b = NpFloat.nan := ha b (List.mem_cons_self b a)
      subst hb
      simp only [List.map_cons, List.zipWith_cons_cons] at hx
      rcases List.mem_cons.mp hx with rfl | hx
      · simp [npAdd, npClip]
      · exact ih a (fun b hb => ha b (List.mem_cons_of_mem _ hb)) x hx

/-- Adding an all-finite noise vector and clipping to `[-1, 1]` yields
only samples inside `[-1, 1]`. -/
theorem clip_zip_val (ys : List ℚ) (a : List NpFloat)
    (ha : ∀ b ∈ a, ∃ r, b = NpFloat.val r) :
    ∀ x ∈ (List.zipWith npAdd (ys.map NpFloat.val) a).map (npClip (-1) 1),
      inRangeB x = true := by
  induction ys generalizing a with
  | nil => intro x hx; simp at hx
  | cons y ys ih =>
    cases a with
    | nil => intro x hx; simp at hx
    | cons b a =>
      intro x hx
      obtain ⟨r, rfl⟩ := ha b (List.mem_cons_self b a)
      simp only [List.map_cons, List.zipWith_cons_cons] at hx
      rcases List.mem_cons.mp hx with rfl | hx
      · simp only [npAdd, npClip, inRangeB, decide_eq_true_eq, qmin_eq, qmax_eq]
        constructor
        · exact le_min (le_trans (by norm_num) (le_max_right (y + r) (-1))) (by norm_num)
        · exact min_le_right _ _
      · exact ih a (fun b hb => ha b (List.mem_cons_of_mem _ hb)) x hx

/-- Concrete numpy environment used for the closed evaluations below.
Its FFT fields implement the exact real discrete Fourier transform for
length-2 inputs (the only length evaluated concretely through the pink
path), and its square root is exact on every value it is asked for. -/
def cNp : NumpyEnv where
  gaussOf := fun _ i => if i = 0 then 1 else 0
  intOf := fun _ _ => 7
  rfftRe := fun x k => if k = 0 then x.getD 0 0 + x.getD 1 0 else x.getD 0 0 - x.getD 1 0
  rfftIm := fun _ _ => 0
  irfftAt := fun bins j =>
    if j = 0 then ((bins.getD 0 (0, 0)).1 + (bins.getD 1 (0, 0)).1) / 2
    else ((bins.getD 0 (0, 0)).1 - (bins.getD 1 (0, 0)).1) / 2
  sqrtQ := fun q =>
    if q = 1 / 100000000 then 1 / 10000 else if q = 1 then 1 else if q = 4 then 2 else 0

/-- C1: for every input waveform and every noise kind, a waveform
returned by `add_noise_to_audio` has the same number of samples as the
input waveform and carries the same sample rate as the input. -/
theorem C1_mix_preserves_length_and_rate (env : NumpyEnv) (y : List ℚ) (sr : ℕ)
    (kind : String) (level : ℚ) (seed : ℤ) (w : List NpFloat × ℕ)
    (h : add_noise_to_audio env y sr kind level seed = some w) :
    w.1.length = y.length ∧ w.2 = sr := by
  obtain ⟨a, _, halen, hw1, hw2⟩ := mix_some_eq env y sr kind level seed w h
  refine ⟨?_, hw2⟩
  rw [hw1]
  simp [halen]

theorem C1_witness :
    add_noise_to_audio cNp [1/2] 16000 "white" (1/50) 0 =
      some ([NpFloat.val (13/25)], 16000) ∧
    (([NpFloat.val (13/25)], (16000 : ℕ)).1.length = [(1 : ℚ)/2].length ∧
      ([NpFloat.val (13/25)], (16000 : ℕ)).2 = 16000) :=
  ⟨by decide, C1_mix_preserves_length_and_rate cNp [1/2] 16000 "white" (1/50) 0
    ([NpFloat.val (13/25)], 16000) (by decide)⟩

/-- C2 counterexample: with a one-sample waveform the impulse synthesis
draws `int(1 * 0.001) = 0` impulses, so the noise is all-zero and its
maximum absolute value is zero — yet the mix does not fail: the division
`0 / 0` yields NaN and an output waveform is produced. -/
theorem C2_counterexample :
    synthesize cNp "impulse" [(3 : ℚ)/10].length 8000 0 = some [0] ∧
    maxAbs [0] = 0 ∧
    add_noise_to_audio cNp [3/10] 8000 "impulse" (1/10) 0 = some ([NpFloat.nan], 8000) :=
  ⟨by decide, by decide, by decide⟩

/-- C2 (amended): if the synthesized noise sequence is all-zero (its
maximum absolute value is zero) and mix returns an output waveform, then
the mix did not fail; every sample of the output is NaN (the division by
zero propagates through scaling, addition and clipping). -/
theorem C2_allzero_noise_gives_nan (env : NumpyEnv) (y : List ℚ) (sr : ℕ)
    (kind : String) (level : ℚ) (seed : ℤ) (noise : List ℚ) (w : List NpFloat × ℕ)
    (hs : synthesize env kind y.length sr seed = some noise)
    (hz : maxAbs noise = 0)
    (h : add_noise_to_audio env y sr kind level seed = some w) :
    ∀ x ∈ w.1, x = NpFloat.nan := by
  obtain ⟨a, ha, _, hw1, _⟩ := mix_some_eq env y sr kind level seed w h
  have ha' : a = scaledNoise noise level := by
    simp only [additiveNoise, hs] at ha
    split at ha
    · exact absurd ha (by simp)
    · exact (Option.some.inj ha).symm
  rw [hw1, ha']
  exact clip_zip_nan y (scaledNoise noise level) (scaledNoise_allzero_nan noise level hz)

theorem C2_witness :
    (synthesize cNp "impulse" [(3 : ℚ)/10].length 8000 0 = some [0] ∧
      maxAbs [0] = 0 ∧
      add_noise_to_audio cNp [3/10] 8000 "impulse" (1/10) 0 = some ([NpFloat.nan], 8000)) ∧
    ∀ x ∈ ([NpFloat.nan], (8000 : ℕ)).1, x = NpFloat.nan :=
  ⟨⟨by decide, by decide, by decide⟩,
    C2_allzero_noise_gives_nan cNp [3/10] 8000 "impulse" (1/10) 0 [0]
      ([NpFloat.nan], 8000) (by decide) (by decide) (by decide)⟩

/-- C3 counterexample: for a waveform of length 1 the impulse noise is
all-zero, normalization produces NaN, and the output sample NaN does not
lie in `[-1, 1]` — the clipping invariant fails as stated. -/
theorem C3_counterexample :
    add_noise_to_audio cNp [(1 : ℚ)/2] 16000 "impulse" (1/50) 42 =
      some ([NpFloat.nan], 16000) ∧
    inRangeB NpFloat.nan = false :=
  ⟨by decide, rfl⟩

/-- C3 (amended): whenever the synthesized noise is not all-zero (its
maximum absolute value is nonzero) and mix returns an output waveform,
every sample of the output lies in the closed interval `[-1, 1]`. -/
theorem C3_mix_clipped_in_range (env : NumpyEnv) (y : List ℚ) (sr : ℕ)
    (kind : String) (level : ℚ) (seed : ℤ) (noise : List ℚ) (w : List NpFloat × ℕ)
    (hs : synthesize env kind y.length sr seed = some noise)
    (hz : maxAbs noise ≠ 0)
    (h : add_noise_to_audio env y sr kind level seed = some w) :
    ∀ x ∈ w.1, inRangeB x = true := by
  obtain ⟨a, ha, _, hw1, _⟩ := mix_some_eq env y sr kind level seed w h
  have ha' : a = scaledNoise noise level := by
    simp only [additiveNoise, hs] at ha
    split at ha
    · exact absurd ha (by simp)
    · exact (Option.some.inj ha).symm
  rw [hw1, ha']
  exact clip_zip_val y (scaledNoise noise level) (scaledNoise_val noise level hz)

theorem C3_witness :
    (synthesize cNp "white" [(1 : ℚ)/4].length 22050 0 = some [1] ∧
      maxAbs [1] ≠ 0 ∧
      add_noise_to_audio cNp [1/4] 22050 "white" (1/10) 0 =
        some ([NpFloat.val (7/20)], 22050)) ∧
    ∀ x ∈ ([NpFloat.val ((7 : ℚ)/20)], (22050 : ℕ)).1, inRangeB x = true :=
  ⟨⟨by decide, by decide, by decide⟩,
    C3_mix_clipped_in_range cNp [1/4] 22050 "white" (1/10) 0 [1]
      ([NpFloat.val (7/20)], 22050) (by decide) (by decide) (by decide)⟩

/-- C10 counterexample: pink-noise synthesis reads the sample rate (the
frequency grid of `rfftfreq` depends on `sr`), so two waveforms of equal
length but different sample rates processed with the same noise spec get
different additive noise sequences. -/
theorem C10_counterexample :
    additiveNoise cNp "pink" 2 2 (1/50) 0 ≠ additiveNoise cNp "pink" 2 8 (1/50) 0 := by
  decide

/-- C10 (amended): the additive noise depends only on the noise kind, the
waveform length, the sample rate and the seed — not on the waveform's
sample values.  Any two successfully mixed waveforms of equal length and
equal sample rate receive the identical additive noise sequence, and each
output is the clipped sum of its own input with that common sequence. -/
theorem C10_noise_independent_of_content (env : NumpyEnv) (y1 y2 : List ℚ) (sr : ℕ)
    (kind : String) (level : ℚ) (seed : ℤ) (w1 w2 : List NpFloat × ℕ)
    (hlen : y1.length = y2.length)
    (h1 : add_noise_to_audio env y1 sr kind level seed = some w1)
    (h2 : add_noise_to_audio env y2 sr kind level seed = some w2) :
    ∃ a, additiveNoise env kind y1.length sr level seed = some a ∧
      w1.1 = (List.zipWith npAdd (y1.map NpFloat.val) a).map (npClip (-1) 1) ∧
      w2.1 = (List.zipWith npAdd (y2.map NpFloat.val) a).map (npClip (-1) 1) := by
  obtain ⟨a, ha, _, hw1, _⟩ := mix_some_eq env y1 sr kind level seed w1 h1
  obtain ⟨b, hb, _, hw2, _⟩ := mix_some_eq env y2 sr kind level seed w2 h2
  refine ⟨a, ha, hw1, ?_⟩
  have hab : b = a := by
    rw [hlen] at ha
    rw [ha] at hb
    exact (Option.some.inj hb).symm
  rw [hw2, hab]

theorem C10_witness :
    ([(1 : ℚ)/2].length = [(-1 : ℚ)/3].length ∧
      add_noise_to_audio cNp [1/2] 16000 "white" (1/50) 0 =
        some ([NpFloat.val (13/25)], 16000) ∧
      add_noise_to_audio cNp [-1/3] 16000 "white" (1/50) 0 =
        some ([NpFloat.val (-47/150)], 16000)) ∧
    ∃ a, additiveNoise cNp "white" [(1 : ℚ)/2].length 16000 (1/50) 0 = some a ∧
      ([NpFloat.val ((13 : ℚ)/25)], (16000 : ℕ)).1 =
        (List.zipWith npAdd ([(1 : ℚ)/2].map NpFloat.val) a).map (npClip (-1) 1) ∧
      ([NpFloat.val ((-47 : ℚ)/150)], (16000 : ℕ)).1 =
        (List.zipWith npAdd ([(-1 : ℚ)/3].map NpFloat.val) a).map (npClip (-1) 1) :=
  ⟨⟨by decide, by decide, by decide⟩,
    C10_noise_independent_of_content cNp [1/2] [-1/3] 16000 "white" (1/50) 0
      ([NpFloat.val (13/25)], 16000) ([NpFloat.val (-47/150)], 16000)
      (by decide) (by decide) (by decide)⟩

/-- Positions never assigned by `assignAll` keep their base value. -/
theorem assignAll_getD_not_mem (ps : List (ℕ × ℚ)) (base : List ℚ) (j : ℕ)
    (hj : j ∉ ps.map Prod.fst) :
    (assignAll base ps).getD j 0 = base.getD j 0 := by
  induction ps generalizing base with
  | nil => rfl
  | cons pv ps ih =>
    simp only [List.map_cons, List.mem_cons, not_or] at hj
    have step : assignAll base (pv :: ps) = assignAll (base.set pv.1 pv.2) ps := rfl
    rw [step, ih (base.set pv.1 pv.2) (fun h => hj.2 h)]
    simp only [List.getD_eq_getElem?_getD]
    rw [List.getElem?_set_ne (fun h => hj.1 h.symm)]

/-- Index set of the nonzero entries of a rational list. -/
def nonzeroIndices (l : List ℚ) : Finset ℕ :=
  (Finset.range l.length).filter (fun j => l.getD j 0 ≠ 0)

/-- A position that was never drawn keeps the base value zero. -/
theorem impulseNoise_getD_not_drawn (env : NumpyEnv) (n : ℕ) (seed : ℤ) (j : ℕ)
    (hj : j ∉ impulsePositions env n seed) :
    (impulseNoise env n seed).getD j 0 = 0 := by
  have hlen2 : (impulsePositions env n seed).length = (impulseAmps env n seed).length := by
    simp [impulsePositions, impulseAmps]
  have hnot : j ∉ ((impulsePositions env n seed).zip (impulseAmps env n seed)).map Prod.fst := by
    intro hc
    exact hj ((List.map_fst_zip _ _ (le_of_eq hlen2)) ▸ hc)
  rw [impulseNoise, assignAll_getD_not_mem _ _ _ hnot]
  simp only [List.getD_eq_getElem?_getD, List.getElem?_replicate]
  split <;> rfl

/-- Every nonzero entry of the impulse noise sits at a drawn position. -/
theorem impulseNoise_nonzero_sub (env : NumpyEnv) (n : ℕ) (seed : ℤ) :
    nonzeroIndices (impulseNoise env n seed) ⊆
      (impulsePositions env n seed).toFinset := by
  intro j hj
  simp only [nonzeroIndices, Finset.mem_filter, Finset.mem_range] at hj
  rcases hj with ⟨_, hne⟩
  by_contra hmem
  exact hne (impulseNoise_getD_not_drawn env n seed j (fun hc => hmem (List.mem_toFinset.mpr hc)))

/-- C8: impulse-noise synthesis draws exactly `⌊len * 0.001⌋` integer
positions, all inside `[0, len)`; the pre-normalization sequence has at
most that many nonzero entries and is zero at every position that was
not drawn. -/
theorem C8_impulse_structure (env : NumpyEnv) (n : ℕ) (seed : ℤ) :
    (impulsePositions env n seed).length = n / 1000 ∧
    (∀ p ∈ impulsePositions env n seed, p < n) ∧
    (nonzeroIndices (impulseNoise env n seed)).card ≤ n / 1000 ∧
    ∀ j, j ∉ impulsePositions env n seed → (impulseNoise env n seed).getD j 0 = 0 := by
  refine ⟨by simp [impulsePositions, numImpulses], ?_, ?_, ?_⟩
  · intro p hp
    simp only [impulsePositions, List.mem_map, List.mem_range] at hp
    obtain ⟨i, hi, rfl⟩ := hp
    have hn : 0 < n := by
      unfold numImpulses at hi
      omega
    exact Nat.mod_lt _ hn
  · calc (nonzeroIndices (impulseNoise env n seed)).card
        ≤ (impulsePositions env n seed).toFinset.card :=
          Finset.card_le_card (impulseNoise_nonzero_sub env n seed)
      _ ≤ (impulsePositions env n seed).length := List.toFinset_card_le _
      _ = n / 1000 := by simp [impulsePositions, numImpulses]
  · exact fun j hj => impulseNoise_getD_not_drawn env n seed j hj

theorem C8_witness :
    (impulsePositions cNp 1000 42).length = 1000 / 1000 ∧
    (∀ p ∈ impulsePositions cNp 1000 42, p < 1000) ∧
    (nonzeroIndices (impulseNoise cNp 1000 42)).card ≤ 1000 / 1000 ∧
    ∀ j, j ∉ impulsePositions cNp 1000 42 → (impulseNoise cNp 1000 42).getD j 0 = 0 :=
  C8_impulse_structure cNp 1000 42

/-- Model of Python's `random` module: after `random.seed(seed)` the
generator is a deterministic stream; `draw seed c` drives the `c`-th
bounded draw (`_randbelow`) made after seeding, used modulo the bound.
A single stream is threaded through consecutive calls by the counter
`c`, exactly like the single global Mersenne Twister state. -/
structure PyRandEnv where
  draw : ℤ → ℕ → ℕ

/-- `x[i], x[j] = x[j], x[i]`: the swap inside `random.shuffle`. -/
def swapL [Inhabited α] (l : List α) (i j : ℕ) : List α :=
  let a := l.getD i default
  let b := l.getD j default
  (l.set i b).set j a

/-- The loop indices of `random.shuffle`:
`for i in reversed(range(1, len(x)))`. -/
def fisherSteps (n : ℕ) : List ℕ := (List.range' 1 (n - 1)).reverse

/-- `random.shuffle(x)` (Fisher-Yates): for `i` from `len-1` down to 1,
draw `j = _randbelow(i+1)` and swap positions `i` and `j`.  Returns the
shuffled list together with the advanced draw counter. -/
def pyShuffle [Inhabited α] (draw : ℕ → ℕ) (c : ℕ) (l : List α) : List α × ℕ :=
  (fisherSteps l.length).foldl
    (fun acc i => (swapL acc.1 i (draw acc.2 % (i + 1)), acc.2 + 1)) (l, c)

/-- `random.sample(population, k)` via CPython's pool algorithm: copy the
population, and `k` times pick `j = _randbelow(m)` inside the active
region, emit `pool[j]`, and move the last active element into slot `j`
(shrinking the active region) — a draw without replacement.  Returns the
sample together with the advanced draw counter. -/
def pySample [Inhabited α] (draw : ℕ → ℕ) (c : ℕ) (pool : List α) : ℕ → List α × ℕ
  | 0 => ([], c)
  | k + 1 =>
    let m := pool.length
    let j := draw c % m
    let picked := pool.getD j default
    let rest := pySample draw (c + 1) ((pool.set j (pool.getD (m - 1) default)).take (m - 1)) k
    (picked :: rest.1, rest.2)

/-- Python strings are modelled as explicit character lists so that the
filename tests compute structurally; literals are written `"...".data`. -/
abbrev PyStr : Type := List Char

/-- `s.lower()` (ASCII case folding, as applied to the filenames). -/
def lowerStr (s : PyStr) : PyStr := s.map Char.toLower

/-- `s.endswith(pat)`. -/
def strEndsWith (s pat : PyStr) : Bool := pat.isSuffixOf s

/-- `s.startswith(pat)`. -/
def strStartsWith (s pat : PyStr) : Bool := pat.isPrefixOf s

/-- `supported_formats` / `audio_formats` shared by all three scripts. -/
def supportedFormats : List PyStr :=
  [".wav".data, ".flac".data, ".mp3".data, ".m4a".data]

/-- `file.lower().endswith(audio_formats)`. -/
def isAudioFile (exts : List PyStr) (file : PyStr) : Bool :=
  exts.any (fun e => strEndsWith (lowerStr file) e)

/-- `any(file.startswith(p) for p in positive_prefixes)`. -/
def isPositiveName (prefs : List PyStr) (file : PyStr) : Bool :=
  prefs.any (fun p => strStartsWith file p)

/-- The directory walk of `balance_samples` / `split_and_generate_labels`
applied to the list of file names it yields: audio files are split into
positive (matching a positive name start) and negative, in traversal
order; non-audio files are ignored. -/
def classifyFiles (prefs exts : List PyStr) (files : List PyStr) :
    List PyStr × List PyStr :=
  files.foldl (fun acc file =>
    if isAudioFile exts file then
      if isPositiveName prefs file then (acc.1 ++ [file], acc.2)
      else (acc.1, acc.2 ++ [file])
    else acc) ([], [])

/-- Filesystem mutations that `balance_samples` can perform. -/
inductive FsOp where
  | rmtree : PyStr → FsOp
  | mkdir : PyStr → FsOp
  | copy : PyStr → PyStr → FsOp
deriving DecidableEq, Repr

/-- Successful outcome of `balance_samples`: the drawn negative sample,
the full selection (positives first, as the code concatenates), and the
number of files copied. -/
structure BalanceOut where
  sampled : List PyStr
  selected : List PyStr
  copiedCount : ℕ
deriving DecidableEq, Repr

/-- Outcome of `balance_samples`: `err` is the `ValueError` raised when
the negative pool is smaller than the positive pool
(InsufficientSamples). -/
inductive BalanceResult where
  | err : BalanceResult
  | ok : BalanceOut → BalanceResult
deriving DecidableEq, Repr

/-- `balance_samples` (数据平衡.py): seed the generator, scan and
classify, fail before any filesystem mutation if negatives are fewer
than positives, otherwise sample `pos_count` negatives without
replacement, destructively reset the output folder and copy the
selection.  The second component is the ordered list of filesystem
mutations performed. -/
def balance_samples (env : PyRandEnv) (files : List PyStr)
    (prefs exts : List PyStr) (outputFolder : PyStr) (outputExists : Bool)
    (seed : ℤ) : BalanceResult × List FsOp :=
  let pr := classifyFiles prefs exts files
  if pr.2.length < pr.1.length then (BalanceResult.err, [])
  else
    let sampled := (pySample (env.draw seed) 0 pr.2 pr.1.length).1
    let selected := pr.1 ++ sampled
    let resetOps := (if outputExists then [FsOp.rmtree outputFolder] else []) ++
      [FsOp.mkdir outputFolder]
    let copyOps := selected.map (fun f => FsOp.copy f (outputFolder ++ '/' :: f))
    (BalanceResult.ok ⟨sampled, selected, selected.length⟩, resetOps ++ copyOps)

/-- One entry of a label JSON file. -/
structure LabelRecord where
  utt_id : PyStr
  speaker_id : PyStr
  keyword_id : ℤ
deriving DecidableEq, Repr

/-- `build_label_list`: one record per stem, `speaker_id == utt_id`. -/
def build_label_list (stems : List PyStr) (kid : ℤ) : List LabelRecord :=
  stems.map (fun s => ⟨s, s, kid⟩)

/-- The six stem lists produced by `split_and_generate_labels`. -/
structure SplitOut where
  p_dev : List PyStr
  p_test : List PyStr
  p_train : List PyStr
  n_dev : List PyStr
  n_test : List PyStr
  n_train : List PyStr
deriving DecidableEq, Repr

/-- `split_and_generate_labels` (数据标签制作.py) on the scanned stem
lists: seed once, compute per-class split sizes with
`int(count * part / total)` (train takes the remainder), shuffle the
positive stems, then shuffle the negative stems continuing from the same
generator state, and slice each shuffled list into dev/test/train. -/
def split_and_generate_labels (env : PyRandEnv) (posStems negStems : List PyStr)
    (d t r : ℕ) (seed : ℤ) : SplitOut :=
  let tot := d + t + r
  let pCount := posStems.length
  let nCount := negStems.length
  let pDevNum := pCount * d / tot
  let pTestNum := pCount * t / tot
  let nDevNum := nCount * d / tot
  let nTestNum := nCount * t / tot
  let posPair := pyShuffle (env.draw seed) 0 posStems
  let negPair := pyShuffle (env.draw seed) posPair.2 negStems
  { p_dev := posPair.1.take pDevNum
    p_test := (posPair.1.drop pDevNum).take pTestNum
    p_train := posPair.1.drop (pDevNum + pTestNum)
    n_dev := negPair.1.take nDevNum
    n_test := (negPair.1.drop nDevNum).take nTestNum
    n_train := negPair.1.drop (nDevNum + nTestNum) }

/-- The six label collections: `keyword_id = 0` for the positive class,
`-1` for the negative class. -/
def splitLabelFiles (out : SplitOut) : List (List LabelRecord) :=
  [build_label_list out.p_dev 0, build_label_list out.p_test 0,
   build_label_list out.p_train 0, build_label_list out.n_dev (-1),
   build_label_list out.n_test (-1), build_label_list out.n_train (-1)]

/-- Selection condition of `batch_process_audio_folder`: an audio file
whose name starts with `base` or `aug`. -/
def batchCond (file : PyStr) : Bool :=
  isAudioFile supportedFormats file &&
    (strStartsWith file "base".data || strStartsWith file "aug".data)

/-- Loop body of `batch_process_audio_folder`: audio files whose name
starts with `base` or `aug` are queued for augmentation, every other
file increments the skipped counter. -/
def batchStep (acc : List PyStr × ℕ) (file : PyStr) : List PyStr × ℕ :=
  if batchCond file then (acc.1 ++ [file], acc.2)
  else (acc.1, acc.2 + 1)

/-- `batch_process_audio_folder` (数据增强.py) applied to the walked file
names: the files handed to `add_noise_to_audio`, and the skip count. -/
def batch_process_audio_folder (files : List PyStr) : List PyStr × ℕ :=
  files.foldl batchStep ([], 0)

/-- Occurrence bookkeeping for a single in-place write: setting slot `i`
removes one occurrence of `l[i]` and adds one occurrence of `x`. -/
theorem count_set_add [DecidableEq α] [Inhabited α] (l : List α) (i : ℕ) (x a : α)
    (hi : i < l.length) :
    (l.set i x).count a + (if l.getD i default = a then 1 else 0) =
      l.count a + (if x = a then 1 else 0) := by
  rw [List.set_eq_take_cons_drop x hi]
  conv_rhs => rw [← List.take_append_drop i l]
  rw [List.drop_eq_getElem_cons hi, List.getD_eq_getElem l default hi]
  simp only [List.count_append, List.count_cons, beq_iff_eq]
  split_ifs <;> omega

/-- Swapping two in-range positions permutes the list. -/
theorem swapL_perm [DecidableEq α] [Inhabited α] (l : List α) (i j : ℕ)
    (hi : i < l.length) (hj : j < l.length) : List.Perm (swapL l i j) l := by
  rw [List.perm_iff_count]
  intro a
  have hj2 : j < (l.set i (l.getD j default)).length := by simpa using hj
  have h1 := count_set_add l i (l.getD j default) a hi
  have h2 := count_set_add (l.set i (l.getD j default)) j (l.getD i default) a hj2
  have hAj : (l.set i (l.getD j default)).getD j default = l.getD j default := by
    by_cases hij : i = j
    · subst hij
      rw [List.getD_eq_getElem _ default hj2]
      simp
    · rw [List.getD_eq_getElem _ default hj2, List.getElem_set_ne hij]
      exact (List.getD_eq_getElem l default hj).symm
  rw [hAj] at h2
  show ((l.set i (l.getD j default)).set j (l.getD i default)).count a = l.count a
  split_ifs at h1 h2 <;> omega

/-- `swapL` preserves length. -/
theorem swapL_length [Inhabited α] (l : List α) (i j : ℕ) :
    (swapL l i j).length = l.length := by
  simp [swapL]

/-- The Fisher-Yates fold permutes the list, provided every step index is
in range. -/
theorem shuffle_fold_perm [DecidableEq α] [Inhabited α] (draw : ℕ → ℕ)
    (steps : List ℕ) (p : List α × ℕ)
    (hsteps : ∀ i ∈ steps, i < p.1.length) :
    (steps.foldl
      (fun acc i => (swapL acc.1 i (draw acc.2 % (i + 1)), acc.2 + 1)) p).1.Perm p.1 := by
  induction steps generalizing p with
  | nil => exact List.Perm.refl _
  | cons i steps ih =>
    have hi : i < p.1.length := hsteps i (List.mem_cons_self i steps)
    have hj : draw p.2 % (i + 1) < p.1.length :=
      lt_of_lt_of_le (Nat.mod_lt _ (Nat.succ_pos i)) hi
    have hstep : ∀ k ∈ steps, k < (swapL p.1 i (draw p.2 % (i + 1))).length := by
      intro k hk
      rw [swapL_length]
      exact hsteps k (List.mem_cons_of_mem i hk)
    exact (ih (swapL p.1 i (draw p.2 % (i + 1)), p.2 + 1) hstep).trans
      (swapL_perm p.1 i (draw p.2 % (i + 1)) hi hj)

/-- `random.shuffle` returns a permutation of its input. -/
theorem pyShuffle_perm [DecidableEq α] [Inhabited α] (draw : ℕ → ℕ) (c : ℕ)
    (l : List α) : (pyShuffle draw c l).1.Perm l := by
  apply shuffle_fold_perm
  intro i hi
  simp only [fisherSteps, List.mem_reverse, List.mem_range'] at hi
  obtain ⟨k, hk, rfl⟩ := hi
  show 1 + 1 * k < l.length
  omega

/-- The counter advances by one per fold step. -/
theorem shuffle_fold_counter [Inhabited α] (draw : ℕ → ℕ) (steps : List ℕ)
    (p : List α × ℕ) :
    (steps.foldl
      (fun acc i => (swapL acc.1 i (draw acc.2 % (i + 1)), acc.2 + 1)) p).2 =
      p.2 + steps.length := by
  induction steps generalizing p with
  | nil => rfl
  | cons i steps ih =>
    rw [List.foldl_cons, ih]
    simp
    omega

/-- `random.shuffle` on a length-`n` list consumes exactly `n - 1` draws. -/
theorem pyShuffle_counter [Inhabited α] (draw : ℕ → ℕ) (c : ℕ) (l : List α) :
    (pyShuffle draw c l).2 = c + (l.length - 1) := by
  unfold pyShuffle
  rw [shuffle_fold_counter]
  simp [fisherSteps]

/-- One sampling step is a permutation: emitting `pool[j]` and moving the
last active element into slot `j` rearranges the pool. -/
theorem pick_cons_perm [DecidableEq α] [Inhabited α] (pool : List α) (j : ℕ)
    (hm : 0 < pool.length) (hj : j < pool.length) :
    List.Perm
      (pool.getD j default ::
        ((pool.set j (pool.getD (pool.length - 1) default)).take (pool.length - 1)))
      pool := by
  rw [List.perm_iff_count]
  intro a
  have hlenA : (pool.set j (pool.getD (pool.length - 1) default)).length = pool.length := by
    simp
  have hpred : pool.length - 1 + 1 = pool.length := Nat.succ_pred_eq_of_pos hm
  have hm1 : pool.length - 1 < (pool.set j (pool.getD (pool.length - 1) default)).length := by
    omega
  have h1 := count_set_add pool j (pool.getD (pool.length - 1) default) a hj
  have hAm : (pool.set j (pool.getD (pool.length - 1) default)).getD (pool.length - 1) default =
      pool.getD (pool.length - 1) default := by
    by_cases hje : j = pool.length - 1
    · subst hje
      rw [List.getD_eq_getElem _ default hm1]
      simp
    · rw [List.getD_eq_getElem _ default hm1, List.getElem_set_ne hje]
      exact (List.getD_eq_getElem pool default (by omega)).symm
  have hdropeq : (pool.set j (pool.getD (pool.length - 1) default)).drop (pool.length - 1) =
      [pool.getD (pool.length - 1) default] := by
    rw [List.drop_eq_getElem_cons hm1, hpred,
      List.drop_eq_nil_of_le (le_of_eq hlenA)]
    congr 1
    exact ((List.getD_eq_getElem _ default hm1).symm).trans hAm
  have hsplit : (pool.set j (pool.getD (pool.length - 1) default)).count a =
      ((pool.set j (pool.getD (pool.length - 1) default)).take (pool.length - 1)).count a +
        (if pool.getD (pool.length - 1) default = a then 1 else 0) := by
    conv_lhs =>
      rw [← List.take_append_drop (pool.length - 1)
        (pool.set j (pool.getD (pool.length - 1) default))]
    rw [hdropeq]
    simp only [List.count_append, List.count_cons, List.count_nil, beq_iff_eq]
    split_ifs <;> omega
  rw [hsplit] at h1
  simp only [List.count_cons, beq_iff_eq]
  split_ifs at h1 ⊢ <;> omega

/-- The sample drawn by `pySample` has exactly the requested size. -/
theorem pySample_length [Inhabited α] (draw : ℕ → ℕ) (c : ℕ) (pool : List α)
    (k : ℕ) (hk : k ≤ pool.length) : (pySample draw c pool k).1.length = k := by
  induction k generalizing c pool with
  | zero => rfl
  | succ k ih =>
    have hplen : ((pool.set (draw c % pool.length) (pool.getD (pool.length - 1) default)).take
        (pool.length - 1)).length = pool.length - 1 := by
      simp
    simp only [pySample, List.length_cons]
    rw [ih _ _ (by rw [hplen]; omega)]

/-- The sample drawn by `pySample` is a sub-multiset of the population:
drawing is without replacement. -/
theorem pySample_subperm [DecidableEq α] [Inhabited α] (draw : ℕ → ℕ) (c : ℕ)
    (pool : List α) (k : ℕ) (hk : k ≤ pool.length) :
    ((pySample draw c pool k).1 : Multiset α) ≤ (pool : Multiset α) := by
  induction k generalizing c pool with
  | zero => simp [pySample]
  | succ k ih =>
    have hm : 0 < pool.length := by omega
    have hj : draw c % pool.length < pool.length := Nat.mod_lt _ hm
    have hplen : ((pool.set (draw c % pool.length) (pool.getD (pool.length - 1) default)).take
        (pool.length - 1)).length = pool.length - 1 := by
      simp
    have hperm := pick_cons_perm pool (draw c % pool.length) hm hj
    have hple := ih (c + 1)
      ((pool.set (draw c % pool.length) (pool.getD (pool.length - 1) default)).take
        (pool.length - 1)) (by rw [hplen]; omega)
    calc ((pySample draw c pool (k + 1)).1 : Multiset α)
        = pool.getD (draw c % pool.length) default ::ₘ
            ((pySample draw (c + 1)
              ((pool.set (draw c % pool.length) (pool.getD (pool.length - 1) default)).take
                (pool.length - 1)) k).1 : Multiset α) := by
          rw [Multiset.cons_coe]
          rfl
      _ ≤ pool.getD (draw c % pool.length) default ::ₘ
            (((pool.set (draw c % pool.length) (pool.getD (pool.length - 1) default)).take
              (pool.length - 1) : List α) : Multiset α) :=
          Multiset.cons_le_cons _ hple
      _ = ((pool.getD (draw c % pool.length) default ::
            ((pool.set (draw c % pool.length) (pool.getD (pool.length - 1) default)).take
              (pool.length - 1)) : List α) : Multiset α) := Multiset.cons_coe _ _
      _ = (pool : Multiset α) := Multiset.coe_eq_coe.mpr hperm

/-- The classification fold keeps positives on the left and negatives on
the right, for any starting accumulator that already satisfies this. -/
theorem classify_fold_spec (prefs exts : List PyStr) (files : List PyStr) :
    ∀ acc : List PyStr × List PyStr,
      (∀ f ∈ acc.1, isPositiveName prefs f = true) →
      (∀ f ∈ acc.2, isPositiveName prefs f = false) →
      (∀ f ∈ (files.foldl (fun acc file =>
          if isAudioFile exts file then
            if isPositiveName prefs file then (acc.1 ++ [file], acc.2)
            else (acc.1, acc.2 ++ [file])
          else acc) acc).1, isPositiveName prefs f = true) ∧
      (∀ f ∈ (files.foldl (fun acc file =>
          if isAudioFile exts file then
            if isPositiveName prefs file then (acc.1 ++ [file], acc.2)
            else (acc.1, acc.2 ++ [file])
          else acc) acc).2, isPositiveName prefs f = false) := by
  induction files with
  | nil => exact fun acc h1 h2 => ⟨h1, h2⟩
  | cons file files ih =>
    intro acc h1 h2
    rw [List.foldl_cons]
    by_cases ha : isAudioFile exts file = true
    · by_cases hp : isPositiveName prefs file = true
      · rw [if_pos ha, if_pos hp]
        refine ih _ ?_ h2
        intro f hf
        rcases List.mem_append.mp hf with hf | hf
        · exact h1 f hf
        · rw [List.mem_singleton] at hf
          subst hf
          exact hp
      · rw [if_pos ha, if_neg hp]
        refine ih _ h1 ?_
        intro f hf
        rcases List.mem_append.mp hf with hf | hf
        · exact h2 f hf
        · rw [List.mem_singleton] at hf
          subst hf
          simpa using hp
    · rw [if_neg ha]
      exact ih acc h1 h2

/-- Every file the scan classifies as positive matches a positive name
start. -/
theorem classifyFiles_pos (prefs exts files : List PyStr) :
    ∀ f ∈ (classifyFiles prefs exts files).1, isPositiveName prefs f = true :=
  (classify_fold_spec prefs exts files ([], []) (by simp) (by simp)).1

/-- Every file the scan classifies as negative fails the positive test. -/
theorem classifyFiles_neg (prefs exts files : List PyStr) :
    ∀ f ∈ (classifyFiles prefs exts files).2, isPositiveName prefs f = false :=
  (classify_fold_spec prefs exts files ([], []) (by simp) (by simp)).2

/-- C5: when the scanned negative pool is strictly smaller than the
positive pool, balancing fails with the InsufficientSamples condition
and performs no filesystem mutation: no removal, no directory creation,
no copy. -/
theorem C5_insufficient_negatives_error (env : PyRandEnv) (files prefs exts : List PyStr)
    (outFolder : PyStr) (outputExists : Bool) (seed : ℤ)
    (h : (classifyFiles prefs exts files).2.length < (classifyFiles prefs exts files).1.length) :
    balance_samples env files prefs exts outFolder outputExists seed =
      (BalanceResult.err, []) := by
  simp only [balance_samples]
  rw [if_pos h]

/-- Concrete Python `random` environment for the closed evaluations. -/
def cPy : PyRandEnv where
  draw := fun _ c => c

theorem C5_witness :
    (classifyFiles ["base".data, "aug".data] supportedFormats ["base1.wav".data]).2.length <
      (classifyFiles ["base".data, "aug".data] supportedFormats ["base1.wav".data]).1.length ∧
    balance_samples cPy ["base1.wav".data] ["base".data, "aug".data] supportedFormats
      "out".data true 42 = (BalanceResult.err, []) :=
  ⟨by decide,
    C5_insufficient_negatives_error cPy ["base1.wav".data] ["base".data, "aug".data]
      supportedFormats "out".data true 42 (by decide)⟩

/-- C6: with enough negatives, balancing succeeds; the drawn negative
sample has exactly the positive count, is a sub-multiset of the scanned
negative pool (without replacement, no entry repeated beyond its
multiplicity), and the selection consists of exactly the positives
followed by the sampled negatives — so it holds exactly `P` positive and
`P` negative entries. -/
theorem C6_balance_selection (env : PyRandEnv) (files prefs exts : List PyStr)
    (outFolder : PyStr) (outputExists : Bool) (seed : ℤ)
    (h : (classifyFiles prefs exts files).1.length ≤ (classifyFiles prefs exts files).2.length) :
    ∃ bo ops, balance_samples env files prefs exts outFolder outputExists seed =
        (BalanceResult.ok bo, ops) ∧
      bo.sampled.length = (classifyFiles prefs exts files).1.length ∧
      (bo.sampled : Multiset PyStr) ≤ ((classifyFiles prefs exts files).2 : Multiset PyStr) ∧
      bo.selected = (classifyFiles prefs exts files).1 ++ bo.sampled ∧
      (bo.selected.filter (fun f => isPositiveName prefs f)).length =
        (classifyFiles prefs exts files).1.length ∧
      (bo.selected.filter (fun f => !(isPositiveName prefs f))).length =
        (classifyFiles prefs exts files).1.length := by
  have hnl : ¬((classifyFiles prefs exts files).2.length <
      (classifyFiles prefs exts files).1.length) := not_lt.mpr h
  have hsub := pySample_subperm (env.draw seed) 0 (classifyFiles prefs exts files).2
    (classifyFiles prefs exts files).1.length h
  have hmemneg : ∀ f ∈ (pySample (env.draw seed) 0 (classifyFiles prefs exts files).2
      (classifyFiles prefs exts files).1.length).1,
      f ∈ (classifyFiles prefs exts files).2 := by
    intro f hf
    exact Multiset.mem_coe.mp (Multiset.mem_of_le hsub (Multiset.mem_coe.mpr hf))
  refine ⟨⟨(pySample (env.draw seed) 0 (classifyFiles prefs exts files).2
        (classifyFiles prefs exts files).1.length).1,
      (classifyFiles prefs exts files).1 ++
        (pySample (env.draw seed) 0 (classifyFiles prefs exts files).2
          (classifyFiles prefs exts files).1.length).1,
      ((classifyFiles prefs exts files).1 ++
        (pySample (env.draw seed) 0 (classifyFiles prefs exts files).2
          (classifyFiles prefs exts files).1.length).1).length⟩,
    ((if outputExists then [FsOp.rmtree outFolder] else []) ++ [FsOp.mkdir outFolder]) ++
      ((classifyFiles prefs exts files).1 ++
        (pySample (env.draw seed) 0 (classifyFiles prefs exts files).2
          (classifyFiles prefs exts files).1.length).1).map
        (fun f => FsOp.copy f (outFolder ++ '/' :: f)),
    ?_, pySample_length (env.draw seed) 0 _ _ h, hsub, rfl, ?_, ?_⟩
  · simp only [balance_samples]
    rw [if_neg hnl]
  · rw [List.filter_append]
    have h1 : ((classifyFiles prefs exts files).1.filter
        (fun f => isPositiveName prefs f)) = (classifyFiles prefs exts files).1 :=
      List.filter_eq_self.mpr (fun f hf => by
        rw [classifyFiles_pos prefs exts files f hf])
    have h2 : ((pySample (env.draw seed) 0 (classifyFiles prefs exts files).2
        (classifyFiles prefs exts files).1.length).1.filter
          (fun f => isPositiveName prefs f)) = [] := by
      rw [List.filter_eq_nil_iff]
      intro f hf
      simp [classifyFiles_neg prefs exts files f (hmemneg f hf)]
    rw [h1, h2, List.append_nil]
  · rw [List.filter_append]
    have h1 : ((classifyFiles prefs exts files).1.filter
        (fun f => !(isPositiveName prefs f))) = [] := by
      rw [List.filter_eq_nil_iff]
      intro f hf
      simp [classifyFiles_pos prefs exts files f hf]
    have h2 : ((pySample (env.draw seed) 0 (classifyFiles prefs exts files).2
        (classifyFiles prefs exts files).1.length).1.filter
          (fun f => !(isPositiveName prefs f))) =
        (pySample (env.draw seed) 0 (classifyFiles prefs exts files).2
          (classifyFiles prefs exts files).1.length).1 :=
      List.filter_eq_self.mpr (fun f hf => by
        simp [classifyFiles_neg prefs exts files f (hmemneg f hf)])
    rw [h1, h2, List.nil_append]
    exact pySample_length (env.draw seed) 0 _ _ h

theorem C6_witness :
    (classifyFiles ["base".data, "aug".data] supportedFormats
        ["base1.wav".data, "n1.wav".data, "n2.wav".data]).1.length ≤
      (classifyFiles ["base".data, "aug".data] supportedFormats
        ["base1.wav".data, "n1.wav".data, "n2.wav".data]).2.length ∧
    ∃ bo ops, balance_samples cPy ["base1.wav".data, "n1.wav".data, "n2.wav".data]
        ["base".data, "aug".data] supportedFormats "out".data false 42 =
        (BalanceResult.ok bo, ops) ∧
      bo.sampled.length = (classifyFiles ["base".data, "aug".data] supportedFormats
        ["base1.wav".data, "n1.wav".data, "n2.wav".data]).1.length ∧
      (bo.sampled : Multiset PyStr) ≤
        ((classifyFiles ["base".data, "aug".data] supportedFormats
          ["base1.wav".data, "n1.wav".data, "n2.wav".data]).2 : Multiset PyStr) ∧
      bo.selected = (classifyFiles ["base".data, "aug".data] supportedFormats
        ["base1.wav".data, "n1.wav".data, "n2.wav".data]).1 ++ bo.sampled ∧
      (bo.selected.filter (fun f => isPositiveName ["base".data, "aug".data] f)).length =
        (classifyFiles ["base".data, "aug".data] supportedFormats
          ["base1.wav".data, "n1.wav".data, "n2.wav".data]).1.length ∧
      (bo.selected.filter (fun f => !(isPositiveName ["base".data, "aug".data] f))).length =
        (classifyFiles ["base".data, "aug".data] supportedFormats
          ["base1.wav".data, "n1.wav".data, "n2.wav".data]).1.length :=
  ⟨by decide,
    C6_balance_selection cPy ["base1.wav".data, "n1.wav".data, "n2.wav".data]
      ["base".data, "aug".data] supportedFormats "out".data false 42 (by decide)⟩

/-- The three slices `l[:a]`, `l[a:a+b]`, `l[a+b:]` reassemble `l`. -/
theorem slice3_concat (l : List α) (a b : ℕ) :
    l.take a ++ ((l.drop a).take b ++ l.drop (a + b)) = l := by
  have hd : l.drop (a + b) = (l.drop a).drop b := by
    rw [List.drop_drop]
  rw [hd, List.take_append_drop, List.take_append_drop]

/-- On a duplicate-free list the three slices are pairwise disjoint. -/
theorem slice3_disjoint (l : List α) (a b : ℕ) (h : l.Nodup) :
    (l.take a).Disjoint ((l.drop a).take b) ∧
      (l.take a).Disjoint (l.drop (a + b)) ∧
      ((l.drop a).take b).Disjoint (l.drop (a + b)) := by
  have hl : (l.take a ++ ((l.drop a).take b ++ l.drop (a + b))).Nodup := by
    rw [slice3_concat]
    exact h
  have h1 := List.disjoint_of_nodup_append hl
  have h2 := hl.of_append_right
  have h3 := List.disjoint_of_nodup_append h2
  refine ⟨?_, ?_, h3⟩
  · intro x hx hy
    exact h1 hx (List.mem_append.mpr (Or.inl hy))
  · intro x hx hy
    exact h1 hx (List.mem_append.mpr (Or.inr hy))

/-- Floor division bound used by the split-size computation: the dev and
test shares together never exceed the class size. -/
theorem split_shares_le (n d t tot : ℕ) (htot : 0 < tot) (hdt : d + t ≤ tot) :
    n * d / tot + n * t / tot ≤ n := by
  have h1 : (n * d / tot + n * t / tot) * tot ≤ n * d + n * t := by
    rw [Nat.add_mul]
    exact Nat.add_le_add (Nat.div_mul_le_self _ _) (Nat.div_mul_le_self _ _)
  have h2 : n * d + n * t ≤ n * tot := by
    rw [← Nat.mul_add]
    exact Nat.mul_le_mul_left n hdt
  have h3 : (n * d / tot + n * t / tot) * tot ≤ n * tot := le_trans h1 h2
  exact Nat.le_of_mul_le_mul_right h3 htot

/-- Slicing a shuffled class list: slice sizes, reassembly into a
permutation of the class, and pairwise disjointness on a duplicate-free
class. -/
theorem class_slices_spec (shuffled stems : List PyStr) (a b : ℕ)
    (hperm : shuffled.Perm stems) (hab : a + b ≤ stems.length) :
    (shuffled.take a).length = a ∧
    ((shuffled.drop a).take b).length = b ∧
    (shuffled.drop (a + b)).length = stems.length - a - b ∧
    (shuffled.take a ++ ((shuffled.drop a).take b ++ shuffled.drop (a + b))).Perm stems ∧
    (stems.Nodup →
      (shuffled.take a).Disjoint ((shuffled.drop a).take b) ∧
      (shuffled.take a).Disjoint (shuffled.drop (a + b)) ∧
      ((shuffled.drop a).take b).Disjoint (shuffled.drop (a + b))) := by
  have hlen : shuffled.length = stems.length := hperm.length_eq
  refine ⟨?_, ?_, ?_, ?_, ?_⟩
  · rw [List.length_take]
    omega
  · rw [List.length_take, List.length_drop]
    omega
  · rw [List.length_drop]
    omega
  · rw [slice3_concat]
    exact hperm
  · intro hnd
    exact slice3_disjoint shuffled a b (hperm.nodup_iff.mpr hnd)

/-- C7: for each class the partitioner's slice sizes are
`devCount = ⌊n*d/total⌋`, `testCount = ⌊n*t/total⌋`,
`trainCount = n - devCount - testCount`; the three counts sum exactly to
the class size, the three slices reassemble to a permutation of the full
class list, and (on a duplicate-free class list) they are pairwise
disjoint. -/
theorem C7_split_partition (env : PyRandEnv) (posStems negStems : List PyStr)
    (d t r : ℕ) (seed : ℤ) (htot : 0 < d + t + r) :
    ((split_and_generate_labels env posStems negStems d t r seed).p_dev.length =
        posStems.length * d / (d + t + r) ∧
      (split_and_generate_labels env posStems negStems d t r seed).p_test.length =
        posStems.length * t / (d + t + r) ∧
      (split_and_generate_labels env posStems negStems d t r seed).p_train.length =
        posStems.length - posStems.length * d / (d + t + r) -
          posStems.length * t / (d + t + r) ∧
      (split_and_generate_labels env posStems negStems d t r seed).p_dev.length +
        (split_and_generate_labels env posStems negStems d t r seed).p_test.length +
        (split_and_generate_labels env posStems negStems d t r seed).p_train.length =
        posStems.length ∧
      ((split_and_generate_labels env posStems negStems d t r seed).p_dev ++
        ((split_and_generate_labels env posStems negStems d t r seed).p_test ++
          (split_and_generate_labels env posStems negStems d t r seed).p_train)).Perm
        posStems ∧
      (posStems.Nodup →
        (split_and_generate_labels env posStems negStems d t r seed).p_dev.Disjoint
          (split_and_generate_labels env posStems negStems d t r seed).p_test ∧
        (split_and_generate_labels env posStems negStems d t r seed).p_dev.Disjoint
          (split_and_generate_labels env posStems negStems d t r seed).p_train ∧
        (split_and_generate_labels env posStems negStems d t r seed).p_test.Disjoint
          (split_and_generate_labels env posStems negStems d t r seed).p_train)) ∧
    ((split_and_generate_labels env posStems negStems d t r seed).n_dev.length =
        negStems.length * d / (d + t + r) ∧
      (split_and_generate_labels env posStems negStems d t r seed).n_test.length =
        negStems.length * t / (d + t + r) ∧
      (split_and_generate_labels env posStems negStems d t r seed).n_train.length =
        negStems.length - negStems.length * d / (d + t + r) -
          negStems.length * t / (d + t + r) ∧
      (split_and_generate_labels env posStems negStems d t r seed).n_dev.length +
        (split_and_generate_labels env posStems negStems d t r seed).n_test.length +
        (split_and_generate_labels env posStems negStems d t r seed).n_train.length =
        negStems.length ∧
      ((split_and_generate_labels env posStems negStems d t r seed).n_dev ++
        ((split_and_generate_labels env posStems negStems d t r seed).n_test ++
          (split_and_generate_labels env posStems negStems d t r seed).n_train)).Perm
        negStems ∧
      (negStems.Nodup →
        (split_and_generate_labels env posStems negStems d t r seed).n_dev.Disjoint
          (split_and_generate_labels env posStems negStems d t r seed).n_test ∧
        (split_and_generate_labels env posStems negStems d t r seed).n_dev.Disjoint
          (split_and_generate_labels env posStems negStems d t r seed).n_train ∧
        (split_and_generate_labels env posStems negStems d t r seed).n_test.Disjoint
          (split_and_generate_labels env posStems negStems d t r seed).n_train)) := by
  have hdt : d + t ≤ d + t + r := by omega
  have habP := split_shares_le posStems.length d t (d + t + r) htot hdt
  have habN := split_shares_le negStems.length d t (d + t + r) htot hdt
  have hpermP : (pyShuffle (env.draw seed) 0 posStems).1.Perm posStems :=
    pyShuffle_perm (env.draw seed) 0 posStems
  have hpermN : (pyShuffle (env.draw seed)
      (pyShuffle (env.draw seed) 0 posStems).2 negStems).1.Perm negStems :=
    pyShuffle_perm (env.draw seed) _ negStems
  have hp := class_slices_spec (pyShuffle (env.draw seed) 0 posStems).1 posStems
    (posStems.length * d / (d + t + r)) (posStems.length * t / (d + t + r)) hpermP habP
  have hn := class_slices_spec (pyShuffle (env.draw seed)
      (pyShuffle (env.draw seed) 0 posStems).2 negStems).1 negStems
    (negStems.length * d / (d + t + r)) (negStems.length * t / (d + t + r)) hpermN habN
  obtain ⟨hp1, hp2, hp3, hp4, hp5⟩ := hp
  obtain ⟨hn1, hn2, hn3, hn4, hn5⟩ := hn
  constructor
  · refine ⟨hp1, hp2, hp3, ?_, hp4, hp5⟩
    have g1 : (split_and_generate_labels env posStems negStems d t r seed).p_dev.length =
        posStems.length * d / (d + t + r) := hp1
    have g2 : (split_and_generate_labels env posStems negStems d t r seed).p_test.length =
        posStems.length * t / (d + t + r) := hp2
    have g3 : (split_and_generate_labels env posStems negStems d t r seed).p_train.length =
        posStems.length - posStems.length * d / (d + t + r) -
          posStems.length * t / (d + t + r) := hp3
    omega
  · refine ⟨hn1, hn2, hn3, ?_, hn4, hn5⟩
    have g1 : (split_and_generate_labels env posStems negStems d t r seed).n_dev.length =
        negStems.length * d / (d + t + r) := hn1
    have g2 : (split_and_generate_labels env posStems negStems d t r seed).n_test.length =
        negStems.length * t / (d + t + r) := hn2
    have g3 : (split_and_generate_labels env posStems negStems d t r seed).n_train.length =
        negStems.length - negStems.length * d / (d + t + r) -
          negStems.length * t / (d + t + r) := hn3
    omega

theorem C7_witness :
    0 < 1 + 1 + 8 ∧
    (((split_and_generate_labels cPy ["ba".data, "bb".data] ["na".data, "nb".data]
        1 1 8 42).p_dev.length = 2 * 1 / (1 + 1 + 8) ∧
      (split_and_generate_labels cPy ["ba".data, "bb".data] ["na".data, "nb".data]
        1 1 8 42).p_test.length = 2 * 1 / (1 + 1 + 8) ∧
      (split_and_generate_labels cPy ["ba".data, "bb".data] ["na".data, "nb".data]
        1 1 8 42).p_train.length = 2 - 2 * 1 / (1 + 1 + 8) - 2 * 1 / (1 + 1 + 8) ∧
      (split_and_generate_labels cPy ["ba".data, "bb".data] ["na".data, "nb".data]
          1 1 8 42).p_dev.length +
        (split_and_generate_labels cPy ["ba".data, "bb".data] ["na".data, "nb".data]
          1 1 8 42).p_test.length +
        (split_and_generate_labels cPy ["ba".data, "bb".data] ["na".data, "nb".data]
          1 1 8 42).p_train.length = 2 ∧
      ((split_and_generate_labels cPy ["ba".data, "bb".data] ["na".data, "nb".data]
          1 1 8 42).p_dev ++
        ((split_and_generate_labels cPy ["ba".data, "bb".data] ["na".data, "nb".data]
          1 1 8 42).p_test ++
          (split_and_generate_labels cPy ["ba".data, "bb".data] ["na".data, "nb".data]
            1 1 8 42).p_train)).Perm ["ba".data, "bb".data] ∧
      ((["ba".data, "bb".data] : List PyStr).Nodup →
        (split_and_generate_labels cPy ["ba".data, "bb".data] ["na".data, "nb".data]
          1 1 8 42).p_dev.Disjoint
          (split_and_generate_labels cPy ["ba".data, "bb".data] ["na".data, "nb".data]
            1 1 8 42).p_test ∧
        (split_and_generate_labels cPy ["ba".data, "bb".data] ["na".data, "nb".data]
          1 1 8 42).p_dev.Disjoint
          (split_and_generate_labels cPy ["ba".data, "bb".data] ["na".data, "nb".data]
            1 1 8 42).p_train ∧
        (split_and_generate_labels cPy ["ba".data, "bb".data] ["na".data, "nb".data]
          1 1 8 42).p_test.Disjoint
          (split_and_generate_labels cPy ["ba".data, "bb".data] ["na".data, "nb".data]
            1 1 8 42).p_train)) ∧
    ((split_and_generate_labels cPy ["ba".data, "bb".data] ["na".data, "nb".data]
        1 1 8 42).n_dev.length = 2 * 1 / (1 + 1 + 8) ∧
      (split_and_generate_labels cPy ["ba".data, "bb".data] ["na".data, "nb".data]
        1 1 8 42).n_test.length = 2 * 1 / (1 + 1 + 8) ∧
      (split_and_generate_labels cPy ["ba".data, "bb".data] ["na".data, "nb".data]
        1 1 8 42).n_train.length = 2 - 2 * 1 / (1 + 1 + 8) - 2 * 1 / (1 + 1 + 8) ∧
      (split_and_generate_labels cPy ["ba".data, "bb".data] ["na".data, "nb".data]
          1 1 8 42).n_dev.length +
        (split_and_generate_labels cPy ["ba".data, "bb".data] ["na".data, "nb".data]
          1 1 8 42).n_test.length +
        (split_and_generate_labels cPy ["ba".data, "bb".data] ["na".data, "nb".data]
          1 1 8 42).n_train.length = 2 ∧
      ((split_and_generate_labels cPy ["ba".data, "bb".data] ["na".data, "nb".data]
          1 1 8 42).n_dev ++
        ((split_and_generate_labels cPy ["ba".data, "bb".data] ["na".data, "nb".data]
          1 1 8 42).n_test ++
          (split_and_generate_labels cPy ["ba".data, "bb".data] ["na".data, "nb".data]
            1 1 8 42).n_train)).Perm ["na".data, "nb".data] ∧
      ((["na".data, "nb".data] : List PyStr).Nodup →
        (split_and_generate_labels cPy ["ba".data, "bb".data] ["na".data, "nb".data]
          1 1 8 42).n_dev.Disjoint
          (split_and_generate_labels cPy ["ba".data, "bb".data] ["na".data, "nb".data]
            1 1 8 42).n_test ∧
        (split_and_generate_labels cPy ["ba".data, "bb".data] ["na".data, "nb".data]
          1 1 8 42).n_dev.Disjoint
          (split_and_generate_labels cPy ["ba".data, "bb".data] ["na".data, "nb".data]
            1 1 8 42).n_train ∧
        (split_and_generate_labels cPy ["ba".data, "bb".data] ["na".data, "nb".data]
          1 1 8 42).n_test.Disjoint
          (split_and_generate_labels cPy ["ba".data, "bb".data] ["na".data, "nb".data]
            1 1 8 42).n_train))) :=
  ⟨by decide,
    C7_split_partition cPy ["ba".data, "bb".data] ["na".data, "nb".data] 1 1 8 42
      (by decide)⟩

/-- C4 counterexample: the generator is seeded once, so the negative
shuffle consumes the state advanced by the positive shuffle; on a
concrete stream it differs from the shuffle a freshly re-seeded
generator would produce. -/
theorem C4_counterexample :
    ((split_and_generate_labels cPy ["p".data, "q".data] ["a".data, "b".data]
        1 1 8 42).n_dev ++
      ((split_and_generate_labels cPy ["p".data, "q".data] ["a".data, "b".data]
        1 1 8 42).n_test ++
        (split_and_generate_labels cPy ["p".data, "q".data] ["a".data, "b".data]
          1 1 8 42).n_train)) ≠
      (pyShuffle (cPy.draw 42) 0 (["a".data, "b".data] : List PyStr)).1 := by
  decide

/-- C4 (amended): both shuffles are driven by one generator seeded once
with `seed`: the positive stems are shuffled from the fresh state
(counter 0), and the negative stems are shuffled from the state the
positive shuffle left behind — advanced by the `pos.length - 1` draws it
consumed — not by a generator freshly re-seeded with `seed`. -/
theorem C4_single_generator_both_shuffles (env : PyRandEnv)
    (posStems negStems : List PyStr) (d t r : ℕ) (seed : ℤ) :
    ((split_and_generate_labels env posStems negStems d t r seed).p_dev ++
      ((split_and_generate_labels env posStems negStems d t r seed).p_test ++
        (split_and_generate_labels env posStems negStems d t r seed).p_train)) =
      (pyShuffle (env.draw seed) 0 posStems).1 ∧
    ((split_and_generate_labels env posStems negStems d t r seed).n_dev ++
      ((split_and_generate_labels env posStems negStems d t r seed).n_test ++
        (split_and_generate_labels env posStems negStems d t r seed).n_train)) =
      (pyShuffle (env.draw seed) (posStems.length - 1) negStems).1 := by
  constructor
  · exact slice3_concat (pyShuffle (env.draw seed) 0 posStems).1 _ _
  · have hc : (pyShuffle (env.draw seed) 0 posStems).2 = posStems.length - 1 := by
      rw [pyShuffle_counter]
      omega
    have hcong : pyShuffle (env.draw seed) ((pyShuffle (env.draw seed) 0 posStems).2)
        negStems = pyShuffle (env.draw seed) (posStems.length - 1) negStems := by
      rw [hc]
    calc ((split_and_generate_labels env posStems negStems d t r seed).n_dev ++
        ((split_and_generate_labels env posStems negStems d t r seed).n_test ++
          (split_and_generate_labels env posStems negStems d t r seed).n_train)) =
        (pyShuffle (env.draw seed) ((pyShuffle (env.draw seed) 0 posStems).2)
          negStems).1 :=
        slice3_concat (pyShuffle (env.draw seed)
          ((pyShuffle (env.draw seed) 0 posStems).2) negStems).1 _ _
      _ = (pyShuffle (env.draw seed) (posStems.length - 1) negStems).1 := by
        rw [hcong]

/-- The batch fold appends exactly the matching files and counts exactly
the non-matching ones. -/
theorem batch_fold_spec (files : List PyStr) :
    ∀ acc : List PyStr × ℕ,
      files.foldl batchStep acc =
        (acc.1 ++ files.filter batchCond,
          acc.2 + (files.filter (fun f => !(batchCond f))).length) := by
  induction files with
  | nil =>
    intro acc
    simp
  | cons file files ih =>
    intro acc
    rw [List.foldl_cons]
    by_cases hc : batchCond file = true
    · have hb : batchStep acc file = (acc.1 ++ [file], acc.2) := by
        simp [batchStep, hc]
      rw [hb, ih]
      simp [hc]
    · have hcf : batchCond file = false := by
        revert hc
        cases batchCond file <;> simp
      have hb : batchStep acc file = (acc.1, acc.2 + 1) := by
        simp [batchStep, hcf]
      rw [hb, ih]
      simp [hcf]
      omega

/-- C9: the batch operation queues a file for noise augmentation exactly
when it is an audio file whose name starts with `base` or `aug`; every
other walked file — negative-class audio included — is left unprocessed
and counted as skipped. -/
theorem C9_batch_selects_positive_audio_only (files : List PyStr) (f : PyStr) :
    (f ∈ (batch_process_audio_folder files).1 ↔
      (f ∈ files ∧ (isAudioFile supportedFormats f &&
        (strStartsWith f "base".data || strStartsWith f "aug".data)) = true)) ∧
    (batch_process_audio_folder files).2 =
      (files.filter (fun g => !(batchCond g))).length := by
  rw [batch_process_audio_folder, batch_fold_spec files ([], 0)]
  constructor
  · simp only [List.nil_append, List.mem_filter, batchCond]
  · simp

theorem C9_witness :
    ("x.wav".data ∈ (batch_process_audio_folder
        ["base1.wav".data, "x.wav".data, "aug2.mp3".data, "readme.txt".data]).1 ↔
      ("x.wav".data ∈ (["base1.wav".data, "x.wav".data, "aug2.mp3".data,
          "readme.txt".data] : List PyStr) ∧
        (isAudioFile supportedFormats "x.wav".data &&
          (strStartsWith "x.wav".data "base".data ||
            strStartsWith "x.wav".data "aug".data)) = true)) ∧
    (batch_process_audio_folder
        ["base1.wav".data, "x.wav".data, "aug2.mp3".data, "readme.txt".data]).2 =
      ((["base1.wav".data, "x.wav".data, "aug2.mp3".data, "readme.txt".data] :
        List PyStr).filter (fun g => !(batchCond g))).length :=
  C9_batch_selects_positive_audio_only
    ["base1.wav".data, "x.wav".data, "aug2.mp3".data, "readme.txt".data] "x.wav".data
